import Mathlib

/-!
Shallow embedding of the Quiz-App repository (React/TypeScript) and proofs
about its specification claims.

The embedding translates the relevant source functions into executable Lean
definitions:

* `src/components/QuizPlayer.tsx` — answer scoring (`getCorrectOptionText`,
  `handleSubmit`), the countdown-timer/manual-submit event loop, and result
  delivery via `Promise.finally`.
* `src/services/storageService.ts` — `toggleBookmark`, `getQuestionsByIds`,
  `addQuestions`.
* `src/components/AdminImport.tsx` — the generate/dedupe/truncate/insert
  pipeline for importing questions (`handleGenerate`).
* `src/App.tsx` and the auth service (`src/unnamed/part_001`) — the identity
  reconciliation step driven by provider pushes.

JavaScript-specific behaviour is modelled explicitly: `undefined`/`null` are
`Option.none`, the `||` default operator is `jsOrStr` / the `if s = ""`
fallbacks, strict equality `===` between `string | null` values is
`jsStrictEq`, and the ES2015 `Map` (insertion-ordered keys, last write wins)
is an association list built by `jsMapInsert`.
-/

namespace QuizApp

/-- Record `Question` from `src/unnamed/part_004` (`types.ts`). -/
structure Question where
  id : String
  text : String
  options : List String
  correctAnswer : String
  topic : String
  subject : String
  deriving Repr, DecidableEq

/-- One entry of `QuizResult.details` as built by `handleSubmit` in
`src/components/QuizPlayer.tsx` (lines 279–284): it carries the resolved
correct answer alongside the selection.  `selectedOption` is `none` for
`null`; `correctAnswer` is an `Option` because `q.options[idx] || q.options[0]`
can evaluate to `undefined` when `options` is empty. -/
structure AnswerDetail where
  questionId : String
  selectedOption : Option String
  correctAnswer : Option String
  isCorrect : Bool
  deriving Repr, DecidableEq

/-- Record `QuizResult` from `types.ts`. -/
structure QuizResult where
  id : String
  userId : String
  timestamp : Nat
  score : Nat
  totalQuestions : Nat
  topic : String
  details : List AnswerDetail
  deriving Repr, DecidableEq

/-- Record `User` (app level) from `types.ts`. -/
structure User where
  uid : String
  displayName : String
  email : String
  photoURL : String
  deriving Repr, DecidableEq

/-! ## JavaScript value helpers -/

/-- JavaScript strict equality `a === b` for `a b : string | null | undefined`
(`none` standing for both `null` and `undefined`, which are never compared to
each other with `===` in the embedded code paths where both sides could be
absent — `null === undefined` is `false`, as is any comparison with only one
side a string). -/
def jsStrictEq (a b : Option String) : Bool :=
  match a, b with
  | some x, some y => x = y
  | some _, none => false
  | none, some _ => false
  | none, none => false

/-- JavaScript `s || d` for `s : string | undefined` and a default `d`:
`undefined` and the empty string are falsy. -/
def jsOrStr (s : Option String) (d : String) : String :=
  match s with
  | some v => if v = "" then d else v
  | none => d

/-- Model of `String.prototype.trim`: strip leading and trailing whitespace
(modelled over the character list so that it is kernel-executable). -/
def jsTrim (s : String) : String :=
  String.mk
    (((s.data.dropWhile Char.isWhitespace).reverse.dropWhile
        Char.isWhitespace).reverse)

/-- Model of `String.prototype.startsWith` (kernel-executable). -/
def jsStartsWith (s pre : String) : Bool :=
  pre.data.isPrefixOf s.data

/-! ## ES2015 `Map` as an insertion-ordered association list

`new Map(pairs)` inserts each pair left to right; a repeated key keeps its
original position but its value is overwritten by the later pair. -/

/-- Model of `Map.prototype.set`: replace in place if the key is present, else append. -/
def jsMapInsert {α : Type} : List (String × α) → String → α → List (String × α)
  | [], k, v => [(k, v)]
  | (k', v') :: rest, k, v =>
    if k' = k then (k, v) :: rest else (k', v') :: jsMapInsert rest k v

/-- Model of `new Map(pairs)`: fold `set` over the pair list. -/
def jsMapOfList {α : Type} (pairs : List (String × α)) : List (String × α) :=
  pairs.foldl (fun m p => jsMapInsert m p.1 p.2) []

/-- Model of `Map.prototype.get` (`none` for `undefined`). -/
def jsMapGet {α : Type} (m : List (String × α)) (k : String) : Option α :=
  (m.find? (fun e => e.1 = k)).map (·.2)

/-- The value of the last pair of `pairs` carrying key `k` (the value a JS
`Map` built from `pairs` associates to `k`). -/
def lastAssoc {α : Type} : List (String × α) → String → Option α
  | [], _ => none
  | p :: rest, k =>
    match lastAssoc rest k with
    | some v => some v
    | none => if p.1 = k then some p.2 else none

/-! ## Scoring (`src/components/QuizPlayer.tsx`) -/

/-- The regex test `ans.match(/[A-D]/i)` on a single character. -/
def isLetterAD (c : Char) : Bool :=
  ('A' ≤ c && c ≤ 'D') || ('a' ≤ c && c ≤ 'd')

/-- Computation `ans.toUpperCase().charCodeAt(0) - 65` for a single ASCII character. -/
def letterIdx (c : Char) : Nat :=
  (if 'a' ≤ c && c ≤ 'z' then c.toNat - 32 else c.toNat) - 65

/-- The expression `q.options[idx] || q.options[0]` (line 232): an
out-of-bounds or empty-string entry at `idx` falls back to `q.options[0]`,
which itself may be `undefined` (`none`) for an empty option list. -/
def jsIndexOrFirst (opts : List String) (idx : Nat) : Option String :=
  match opts.get? idx with
  | some s => if s = "" then opts.get? 0 else some s
  | none => opts.get? 0

/-- Function `getCorrectOptionText` (`QuizPlayer.tsx` lines 226–237): trim the stored
`correctAnswer`; a single letter `A`–`D` (case-insensitive) is resolved as an
option index with first-option fallback, anything else is already-literal
text. -/
def getCorrectOptionText (q : Question) : Option String :=
  let ans := jsTrim q.correctAnswer
  match ans.data with
  | [c] => if isLetterAD c then jsIndexOrFirst q.options (letterIdx c) else some ans
  | _ => some ans

/-- Expression `answers[q.id] || null` (line 273): a missing or empty-string entry of the
answer map becomes `null`. -/
def selectedFor (answers : String → Option String) (qid : String) : Option String :=
  match answers qid with
  | some s => if s = "" then none else some s
  | none => none

/-- One pass of the `details` map body in `handleSubmit`
(`QuizPlayer.tsx` lines 272–285). -/
def scoreDetail (answers : String → Option String) (q : Question) : AnswerDetail :=
  let selected := selectedFor answers q.id
  let correctText := getCorrectOptionText q
  { questionId := q.id
    selectedOption := selected
    correctAnswer := correctText
    isCorrect := jsStrictEq selected correctText }

/-- The `score`/`details` accumulation of `handleSubmit`: map over the
questions in order, incrementing `score` for each correct detail. -/
def submitDetails (answers : String → Option String) :
    List Question → Nat × List AnswerDetail
  | [] => (0, [])
  | q :: qs =>
    let d := scoreDetail answers q
    let (s, ds) := submitDetails answers qs
    (if d.isCorrect then s + 1 else s, d :: ds)

/-- Function `handleSubmit` (`QuizPlayer.tsx` lines 269–295) as a pure function of the
question list and answer map; the random result id and `Date.now()` timestamp
are passed in as parameters. -/
def handleSubmit (answers : String → Option String) (qs : List Question)
    (userId topic rid : String) (ts : Nat) : QuizResult :=
  let (score, details) := submitDetails answers qs
  { id := rid
    userId := userId
    timestamp := ts
    score := score
    totalQuestions := qs.length
    topic := topic
    details := details }

/-! ## Submission delivery (`Promise.finally`, `QuizPlayer.tsx` lines 297–300)

`storageService.saveQuizResult(userId, result).finally(() => {
  if (timerRef.current) clearInterval(timerRef.current);
  onComplete(result);
});`

A `.finally` callback runs on fulfilment and on rejection alike, so the
`onComplete` calls emitted by one submission do not depend on the outcome of
the store write. -/

/-- The list of `onComplete` invocations emitted by one `handleSubmit` call,
given the outcome of the `saveQuizResult` promise. -/
def submitDeliveries (answers : String → Option String) (qs : List Question)
    (userId topic rid : String) (ts : Nat)
    (saveOutcome : Except String Unit) : List QuizResult :=
  let result := handleSubmit answers qs userId topic rid ts
  match saveOutcome with
  | Except.ok _ => [result]
  | Except.error _ => [result]

/-! ## Timer / manual-submit event loop (`QuizPlayer.tsx` lines 304–323)

The interval callback decrements `timeLeft` once per second; at
`prev <= 1` it clears the interval and calls `handleSubmit`.  The Submit
button (line 357) calls the same `handleSubmit` directly.  `handleSubmit`
itself contains no already-submitted check: every invocation builds a
`QuizResult` and starts a `saveQuizResult` write (the interval is cleared
only later, inside the `.finally` of that write). -/

/-- Events reaching the quiz session on the single-threaded event loop. -/
inductive QuizEvent
  | tick
  | submitClick
  deriving Repr, DecidableEq

/-- The observable session state: remaining seconds, whether the interval is
still registered, and how many submissions (result constructions +
`saveQuizResult` write attempts) have run. -/
structure EngineState where
  timeLeft : Nat
  timerActive : Bool
  submits : Nat
  deriving Repr, DecidableEq

/-- One event-loop step of the session: the interval callback
(`QuizPlayer.tsx` lines 309–318) or a Submit-button click (line 357).  Both
paths invoke `handleSubmit` unconditionally. -/
def engineStep (s : EngineState) (e : QuizEvent) : EngineState :=
  match e with
  | QuizEvent.submitClick => { s with submits := s.submits + 1 }
  | QuizEvent.tick =>
    if s.timerActive then
      if s.timeLeft ≤ 1 then
        { s with timerActive := false, timeLeft := 0, submits := s.submits + 1 }
      else
        { s with timeLeft := s.timeLeft - 1 }
    else s

/-- Run a sequence of events. -/
def engineRun (s : EngineState) (es : List QuizEvent) : EngineState :=
  es.foldl engineStep s

/-- Session start: `timeLeft = questions.length * 60`, interval registered,
nothing submitted. -/
def initialEngine (questionCount : Nat) : EngineState :=
  { timeLeft := questionCount * 60, timerActive := true, submits := 0 }

end QuizApp

namespace QuizApp

/-! ## Bookmarks (`src/services/storageService.ts` lines 90–109) -/

/-- Firestore `arrayUnion(x)`: append `x` if absent. -/
def arrayUnion (ids : List String) (x : String) : List String :=
  if ids.contains x then ids else ids ++ [x]

/-- Firestore `arrayRemove(x)`: remove every occurrence of `x`. -/
def arrayRemove (ids : List String) (x : String) : List String :=
  ids.filter (fun y => ¬ (y = x))

/-- The `users/{uid}/meta/bookmarks` document: `none` when the document does
not exist; `some d` a document whose `ids` field is `d` (itself optional,
covering `snap.data().ids || []`). -/
def BookmarkDoc : Type := Option (Option (List String))

/-- Function `toggleBookmark` (`storageService.ts` lines 90–109): create the document
`{ ids: [qId] }` on first use, otherwise flip membership with
`arrayUnion`/`arrayRemove`, returning whether the id was added. -/
def toggleBookmark (store : BookmarkDoc) (qId : String) :
    Bool × BookmarkDoc :=
  match store with
  | none => (true, some (some [qId]))
  | some d =>
    let ids := d.getD []
    let isAdded := !(ids.contains qId)
    if isAdded then (true, some (some (arrayUnion ids qId)))
    else (false, some (some (arrayRemove ids qId)))

/-- The `ids` array a bookmark document denotes (missing document or missing
field both read as `[]`, exactly as `getUserBookmarks` does). -/
def bookmarkIds (store : BookmarkDoc) : List String :=
  match store with
  | none => []
  | some d => d.getD []

end QuizApp

namespace QuizApp

/-! ## Question lookup (`storageService.ts` lines 59–66) and the review index
(`src/App.tsx` lines 158–164) -/

/-- Function `getQuestionsByIds`: build `new Map(all.map(q => [q.id, q]))` and resolve
the requested ids in order, dropping unresolved ones
(`ids.map(id => map.get(id)).filter(Boolean)`; `Question` objects are always
truthy, so `filter(Boolean)` drops exactly the `undefined` lookups). -/
def getQuestionsByIds (allQuestions : List Question) (ids : List String) :
    List Question :=
  if ids.isEmpty then []
  else
    let m := jsMapOfList (allQuestions.map (fun q => (q.id, q)))
    (ids.map (fun id => jsMapGet m id)).reduceOption

/-- The review effect of `App.tsx` (lines 158–164): resolve
`lastResult.details.map(d => d.questionId)` through `getQuestionsByIds`. -/
def reviewQuestions (store : List Question) (result : QuizResult) :
    List Question :=
  getQuestionsByIds store (result.details.map (fun d => d.questionId))

end QuizApp

namespace QuizApp

/-! ## Import pipeline (`src/components/AdminImport.tsx` lines 34–121) -/

/-- Step (1) of `handleGenerate` (lines 83–86):
`Array.from(new Map(questions.map(q => [q.text.trim(), q])).values())`.
Keys are the *trimmed* texts (leading/trailing whitespace removed, case and
inner whitespace untouched); a repeated key keeps its first position but the
`Map` constructor overwrites its value, so the surviving record is the last
duplicate. -/
def dedupeByText (qs : List Question) : List Question :=
  (jsMapOfList (qs.map (fun q => (jsTrim q.text, q)))).map (fun p => p.2)

/-- The fresh-id assignment applied before the store write: `handleGenerate`
maps every kept question to `{...q, id: crypto.randomUUID()}` (lines 96–99)
and `storageService.addQuestions` (lines 19–33) then overwrites that id once
more with the generated Firestore document id.  Both draws are folded into
one supply `uuid` of fresh ids indexed by position. -/
def withIds (uuid : Nat → String) (qs : List Question) : List Question :=
  qs.enum.map (fun p => { p.2 with id := uuid p.1 })

/-- Function `handleGenerate` (`AdminImport.tsx` lines 34–121) from the point the
generation adapter has returned, as a function from the current question
store to either an error message (the `throw`/`setResultMsg` path, on which
`addQuestions` is never reached) or the new store contents
(`addQuestions` appends the freshly-identified questions).  The
`questionCount < 1` guard (lines 40–43) precedes everything; the
subject/topic presence check and the three generation modes only decide the
`generated` input and are not claims' subject. -/
def handleGenerate (questionCount : Nat) (generated : List Question)
    (store : List Question) (uuid : Nat → String) :
    Except String (List Question) :=
  if questionCount < 1 then
    Except.error "Question count should be at least 1."
  else if generated.isEmpty then
    Except.error "AI did not generate any usable questions."
  else
    let uniqueByText := dedupeByText generated
    let finalQuestions := uniqueByText.take questionCount
    if finalQuestions.isEmpty then
      Except.error "No unique questions found after filtering."
    else
      Except.ok (store ++ withIds uuid finalQuestions)

/-- The last question of `qs` whose trimmed text is `k` (the record a JS
`Map` keyed by trimmed text retains for `k`). -/
def lastWithText : List Question → String → Option Question
  | [], _ => none
  | q :: rest, k =>
    match lastWithText rest k with
    | some r => some r
    | none => if jsTrim q.text = k then some q else none

end QuizApp

namespace QuizApp

/-! ## Identity reconciliation (`src/unnamed/part_001` lines 99–123 and
`src/App.tsx` lines 27–46) -/

/-- A Firebase `User` as observed by the listener; `displayName`, `email` and
`photoURL` are nullable. -/
structure FirebaseUser where
  uid : String
  displayName : Option String
  email : Option String
  photoURL : Option String
  deriving Repr, DecidableEq

/-- Function `authService.transformUser` (`src/unnamed/part_001` lines 15–24). -/
def transformUser (fu : FirebaseUser) : User :=
  { uid := fu.uid
    displayName := jsOrStr fu.displayName "User"
    email := jsOrStr fu.email ""
    photoURL := jsOrStr fu.photoURL
      "https://ui-avatars.com/api/?name=User&background=444&color=fff" }

/-- The listener body of `authService.onAuthStateChanged`
(`src/unnamed/part_001` lines 99–123), as a function of the stored guest
snapshot (`localStorage "quiz_guest_data"`, `none` when absent) and the
provider push.  Returns the value handed to the app callback and the guest
snapshot after the listener ran (a real sign-in removes it). -/
def listenerEmit (guestData : Option User) (push : Option FirebaseUser) :
    Option User × Option User :=
  match push, guestData with
  | none, some g => (some g, some g)
  | some fu, _ => (some (transformUser fu), none)
  | none, none => (none, none)

/-- The views of `AppState.view` (`types.ts`). -/
inductive AppView
  | auth
  | dashboard
  | quiz
  | review
  | admin
  deriving Repr, DecidableEq

/-- Guard `!appState.currentUser?.uid.startsWith('guest_')` is `false` — i.e. the
reset branch of the `App.tsx` listener is skipped — exactly when a current
user exists and its uid carries the guest prefix. -/
def isGuestCurrent (cu : Option User) : Bool :=
  match cu with
  | some u => jsStartsWith u.uid "guest_"
  | none => false

/-- The reconciliation-relevant app state plus the local guest snapshot. -/
structure AuthState where
  currentUser : Option User
  view : AppView
  guestData : Option User
  deriving Repr, DecidableEq

/-- One provider push through the auth-listener effect of `App.tsx`
(lines 27–46): a delivered user is installed (leaving `auth` view for the
dashboard); a delivered `null` resets to the auth screen unless the current
identity is a guest. -/
def authPushStep (σ : AuthState) (push : Option FirebaseUser) : AuthState :=
  let (delivered, gd) := listenerEmit σ.guestData push
  match delivered with
  | some u =>
    { σ with
      currentUser := some u
      view := if σ.view = AppView.auth then AppView.dashboard else σ.view
      guestData := gd }
  | none =>
    if isGuestCurrent σ.currentUser then { σ with guestData := gd }
    else { σ with currentUser := none, view := AppView.auth, guestData := gd }

/-- Apply `n` consecutive provider pushes of `null`. -/
def nullPushes (σ : AuthState) : Nat → AuthState
  | 0 => σ
  | n + 1 => nullPushes (authPushStep σ none) n

end QuizApp

namespace QuizApp

/-! ## Derived predicates and concrete fixtures used by the theorems -/

/-- Whether a string is a single letter `A`–`D` in either case — i.e. whether
`getCorrectOptionText` would treat it as an option index rather than as
literal answer text. -/
def isSingleLetterAD (s : String) : Bool :=
  match s.data with
  | [c] => isLetterAD c
  | _ => false

/-- Whether some stored question carries the given id (i.e. whether the id
still resolves against the question store). -/
def resolvesIn (store : List Question) (id : String) : Bool :=
  store.any (fun q => q.id = id)

/-- A question stored in the letter convention: the intended correct option
is `options[0] = "B"`, stored as the letter `"A"`. -/
def qLetterConv : Question :=
  { id := "q1", text := "2+2?", options := ["B", "A"], correctAnswer := "A",
    topic := "T", subject := "S" }

/-- The same question stored in the literal-text convention: the intended
correct option `"B"` stored verbatim. -/
def qLiteralConv : Question :=
  { id := "q1", text := "2+2?", options := ["B", "A"], correctAnswer := "B",
    topic := "T", subject := "S" }

/-- Letter-convention question for the C2 witness (`"B"` resolves to
`options[1] = "y"`). -/
def qLetterW : Question :=
  { id := "q1", text := "t", options := ["x", "y"], correctAnswer := "B",
    topic := "T", subject := "S" }

/-- Literal-convention twin of `qLetterW`. -/
def qLiteralW : Question :=
  { id := "q1", text := "t", options := ["x", "y"], correctAnswer := "y",
    topic := "T", subject := "S" }

/-- First question of the C4 witness quiz (letter `"A"` resolves to
`options[0] = "B"`). -/
def c4q1 : Question :=
  { id := "a", text := "t1", options := ["B", "A"], correctAnswer := "A",
    topic := "T", subject := "S" }

/-- Second question of the C4 witness quiz, left unanswered. -/
def c4q2 : Question :=
  { id := "b", text := "t2", options := ["C", "D"], correctAnswer := "C",
    topic := "T", subject := "S" }

/-- Answer map of the C4 witness quiz: only question `"a"` answered. -/
def c4answers : String → Option String :=
  fun id => if id = "a" then some "B" else none

/-- Earlier of two candidates whose texts agree after trimming. -/
def c5q1 : Question :=
  { id := "g1", text := "Hi ", options := ["x"], correctAnswer := "x",
    topic := "t", subject := "s" }

/-- Later of two candidates whose texts agree after trimming (different
record: other id and options). -/
def c5q2 : Question :=
  { id := "g2", text := "Hi", options := ["y"], correctAnswer := "y",
    topic := "t", subject := "s" }

/-- Candidate list with an exact-after-trim duplicate. -/
def c5gen : List Question := [c5q1, c5q2]

/-- Candidate whose text differs from `c5caseB` only in letter case. -/
def c5caseA : Question :=
  { id := "g3", text := "Same text", options := ["x"], correctAnswer := "x",
    topic := "t", subject := "s" }

/-- Case-variant twin of `c5caseA`. -/
def c5caseB : Question :=
  { id := "g4", text := "same text", options := ["x"], correctAnswer := "x",
    topic := "t", subject := "s" }

/-- Deterministic fresh-id supply for concrete import runs. -/
def c5uuid : Nat → String := fun _ => "u"

/-- The store contents `handleGenerate 1 c5gen [] c5uuid` produces: the later
duplicate's record, under the fresh id. -/
def c5expected : List Question :=
  [{ id := "u", text := "Hi", options := ["y"], correctAnswer := "y",
     topic := "t", subject := "s" }]

/-- Guest user fixture for the C7 witness. -/
def guestEx : User :=
  { uid := "guest_1718", displayName := "Guest Explorer", email := "",
    photoURL := "p" }

/-- Reconciler state with an active guest session (guest snapshot present). -/
def authStateEx : AuthState :=
  { currentUser := some guestEx, view := AppView.dashboard,
    guestData := some guestEx }

/-- Stored question `qa` for the C9 witness. -/
def c9qa : Question :=
  { id := "qa", text := "A?", options := ["1"], correctAnswer := "1",
    topic := "t", subject := "s" }

/-- Stored question `qb` for the C9 witness. -/
def c9qb : Question :=
  { id := "qb", text := "B?", options := ["2"], correctAnswer := "2",
    topic := "t", subject := "s" }

/-- Question store for the C9 witness (store order `qa`, `qb`). -/
def c9store : List Question := [c9qa, c9qb]

/-- Completed result for the C9 witness: detail order `qb`, then a question
id that no longer resolves, then `qa` — the reverse of store order. -/
def c9result : QuizResult :=
  { id := "r", userId := "u", timestamp := 0, score := 1, totalQuestions := 3,
    topic := "t",
    details :=
      [{ questionId := "qb", selectedOption := some "2",
         correctAnswer := some "2", isCorrect := true },
       { questionId := "gone", selectedOption := none,
         correctAnswer := some "x", isCorrect := false },
       { questionId := "qa", selectedOption := none,
         correctAnswer := some "1", isCorrect := false }] }

end QuizApp

namespace QuizApp

/-! ## Helper lemmas -/

theorem contains_true_iff (l : List String) (x : String) :
    l.contains x = true ↔ x ∈ l := by
  simp [List.contains, List.elem_iff]

theorem mem_arrayUnion_self (ids : List String) (x : String) :
    x ∈ arrayUnion ids x := by
  by_cases hm : x ∈ ids <;> simp [arrayUnion, contains_true_iff, hm]

theorem not_mem_arrayRemove_self (ids : List String) (x : String) :
    x ∉ arrayRemove ids x := by
  simp [arrayRemove]

theorem toggleBookmark_fst (s : BookmarkDoc) (qId : String) :
    (toggleBookmark s qId).1 = !((bookmarkIds s).contains qId) := by
  match s with
  | none => simp [toggleBookmark, bookmarkIds]
  | some d =>
    by_cases hm : qId ∈ d.getD [] <;>
      simp [toggleBookmark, bookmarkIds, contains_true_iff, hm]

theorem toggleBookmark_contains (s : BookmarkDoc) (qId : String) :
    (bookmarkIds (toggleBookmark s qId).2).contains qId
      = (toggleBookmark s qId).1 := by
  match s with
  | none => simp [toggleBookmark, bookmarkIds]
  | some d =>
    by_cases hm : qId ∈ d.getD []
    · simp [toggleBookmark, bookmarkIds, contains_true_iff, hm,
        not_mem_arrayRemove_self]
    · simp [toggleBookmark, bookmarkIds, contains_true_iff, hm,
        mem_arrayUnion_self]

end QuizApp

namespace QuizApp

/-! ## Claim theorems -/

/-- C3: `toggleBookmark` is its own inverse on set membership: from any
bookmark-document state, a second consecutive call for the same question id
returns the negation of the first call's answer, a third call returns the
first answer again, and the first-ever call (no document yet) creates the
bookmark document containing exactly that one id and returns `true`. -/
theorem c3_toggleBookmark_self_inverse (s : BookmarkDoc) (qId : String) :
    (toggleBookmark (toggleBookmark s qId).2 qId).1
        = !(toggleBookmark s qId).1
    ∧ (toggleBookmark
        (toggleBookmark (toggleBookmark s qId).2 qId).2 qId).1
        = (toggleBookmark s qId).1
    ∧ toggleBookmark none qId = (true, some (some [qId])) := by
  have h1 := toggleBookmark_fst (toggleBookmark s qId).2 qId
  have h2 := toggleBookmark_contains s qId
  have h3 := toggleBookmark_fst
    (toggleBookmark (toggleBookmark s qId).2 qId).2 qId
  have h4 := toggleBookmark_contains (toggleBookmark s qId).2 qId
  refine ⟨?_, ?_, rfl⟩
  · rw [h1, h2]
  · rw [h3, h4, h1, h2, Bool.not_not]

/-- C10: when the stored `correctAnswer` trims to one letter `A`–`D` in
either case whose index is outside the option list, `getCorrectOptionText`
falls back to the first option (`q.options[idx] || q.options[0]`) instead of
treating the letter as literal answer text. -/
theorem c10_out_of_bounds_letter_falls_back (q : Question) (c : Char)
    (hc : (jsTrim q.correctAnswer).data = [c])
    (hl : isLetterAD c = true)
    (hoob : q.options.length ≤ letterIdx c)
    (hne : q.options ≠ []) :
    ∃ h0 : 0 < q.options.length,
      getCorrectOptionText q = some (q.options.get ⟨0, h0⟩) := by
  have h0 : 0 < q.options.length := List.length_pos.mpr hne
  refine ⟨h0, ?_⟩
  have hnone : q.options[letterIdx c]? = none :=
    List.getElem?_eq_none hoob
  have hget : q.options[0]? = some (q.options.get ⟨0, h0⟩) :=
    List.getElem?_eq_getElem h0
  simp [getCorrectOptionText, hc, hl, jsIndexOrFirst, hnone, hget]

/-- Witness for C10 at a concrete question: `correctAnswer = "d"` with only
two options resolves to the first option `"x"`. -/
theorem c10_witness :
    getCorrectOptionText
      { id := "q", text := "t", options := ["x", "y"], correctAnswer := "d",
        topic := "T", subject := "S" } = some "x" := by
  obtain ⟨h0, h⟩ := c10_out_of_bounds_letter_falls_back
    { id := "q", text := "t", options := ["x", "y"], correctAnswer := "d",
      topic := "T", subject := "S" }
    'd' (by decide) (by decide) (by decide) (by decide)
  rw [h]
  rfl

/-- C8: the `QuizResult` built in memory by a submission is handed to
`onComplete` exactly once whether the `saveQuizResult` write fulfils or
rejects, because the delivery happens in the write's `.finally` callback. -/
theorem c8_result_delivered_regardless_of_save
    (answers : String → Option String) (qs : List Question)
    (uid topic rid : String) (ts : Nat) (o : Except String Unit) :
    submitDeliveries answers qs uid topic rid ts o
      = [handleSubmit answers qs uid topic rid ts] := by
  cases o <;> rfl

set_option maxRecDepth 4000 in
/-- C1 (code bug): the claimed already-submitted guard does not exist.  In a
three-question session (180-second timer) where the interval callback reaches
zero and the user clicks Submit inside the same tick, `handleSubmit` runs
twice: two `QuizResult`s are built and two History-Store writes are
attempted, where the claim requires exactly one. -/
theorem c1_double_submit_on_final_tick :
    (engineRun (initialEngine 3)
        (List.replicate 180 QuizEvent.tick)).submits = 1
    ∧ (engineRun (initialEngine 3)
        (List.replicate 180 QuizEvent.tick
          ++ [QuizEvent.submitClick])).submits = 2 := by
  constructor <;> decide

end QuizApp

namespace QuizApp

/-! ## Scoring lemmas -/

theorem submitDetails_snd (answers : String → Option String)
    (qs : List Question) :
    (submitDetails answers qs).2 = qs.map (scoreDetail answers) := by
  induction qs with
  | nil => rfl
  | cons q qs ih => simp [submitDetails, ih]

theorem submitDetails_fst (answers : String → Option String)
    (qs : List Question) :
    (submitDetails answers qs).1
      = ((submitDetails answers qs).2.filter (fun d => d.isCorrect)).length := by
  induction qs with
  | nil => rfl
  | cons q qs ih =>
    simp only [submitDetails]
    cases hd : (scoreDetail answers q).isCorrect <;>
      simp [List.filter, hd, ih]

theorem zip_map_snd {α β : Type} (f : α → β) (l : List α) :
    ∀ p ∈ l.zip (l.map f), p.2 = f p.1 := by
  induction l with
  | nil => simp
  | cons a l ih =>
    intro p hp
    simp only [List.map_cons, List.zip_cons_cons, List.mem_cons] at hp
    cases hp with
    | inl h => rw [h]
    | inr h => exact ih p h

/-- C2 counterexample: the two storage conventions for the same question do
not always score identically.  With options `["B", "A"]`, the letter
convention `correctAnswer = "A"` resolves to `options[0] = "B"`, but the
literal convention `correctAnswer = "B"` — the text of one option — is
itself a single letter, gets treated as an index, and resolves to
`options[1] = "A"`, so selecting `"B"` is correct in one convention and
incorrect in the other. -/
theorem c2_counterexample :
    qLetterConv.options = qLiteralConv.options
    ∧ (jsTrim qLetterConv.correctAnswer).data = ['A']
    ∧ letterIdx 'A' < qLetterConv.options.length
    ∧ qLiteralConv.correctAnswer ∈ qLiteralConv.options
    ∧ jsStrictEq (some "B") (getCorrectOptionText qLetterConv) = true
    ∧ jsStrictEq (some "B") (getCorrectOptionText qLiteralConv) = false := by
  decide

/-- C2 (amended): the letter convention (in-bounds letter `A`–`D`) and the
literal-text convention agree on every selection, provided the referenced
option text is non-empty, is unchanged by trimming, and is not itself a
single letter `A`–`D` — without those provisos the conventions can diverge
(see the counterexample). -/
theorem c2_conventions_score_identically (qL qT : Question) (c : Char)
    (sel : Option String)
    (hopts : qL.options = qT.options)
    (hcL : (jsTrim qL.correctAnswer).data = [c])
    (hc : isLetterAD c = true)
    (hidx : letterIdx c < qL.options.length)
    (hlit : jsTrim qT.correctAnswer = qL.options.get ⟨letterIdx c, hidx⟩)
    (hne : qL.options.get ⟨letterIdx c, hidx⟩ ≠ "")
    (hnl : isSingleLetterAD (qL.options.get ⟨letterIdx c, hidx⟩) = false) :
    jsStrictEq sel (getCorrectOptionText qL)
      = jsStrictEq sel (getCorrectOptionText qT) := by
  have hsome : qL.options[letterIdx c]?
      = some (qL.options.get ⟨letterIdx c, hidx⟩) :=
    List.getElem?_eq_getElem hidx
  have hne2 : qL.options[letterIdx c] ≠ "" := hne
  have hL : getCorrectOptionText qL
      = some (qL.options.get ⟨letterIdx c, hidx⟩) := by
    simp [getCorrectOptionText, hcL, hc, jsIndexOrFirst, hsome, hne2]
  have hT : getCorrectOptionText qT
      = some (qL.options.get ⟨letterIdx c, hidx⟩) := by
    simp only [getCorrectOptionText, hlit]
    cases hd : (qL.options.get ⟨letterIdx c, hidx⟩).data with
    | nil => simp [hd]
    | cons c0 rest =>
      cases rest with
      | nil =>
        have hc0 : isLetterAD c0 = false := by
          have := hnl
          simp only [isSingleLetterAD, hd] at this
          exact this
        simp [hd, hc0]
      | cons c1 rest1 => simp [hd]
  rw [hL, hT]

/-- Witness for the amended C2 at a concrete pair: letter `"B"` and literal
`"y"` over options `["x", "y"]` score the selection `"y"` identically (and
correctly). -/
theorem c2_witness :
    jsStrictEq (some "y") (getCorrectOptionText qLetterW)
      = jsStrictEq (some "y") (getCorrectOptionText qLiteralW)
    ∧ jsStrictEq (some "y") (getCorrectOptionText qLetterW) = true := by
  refine ⟨?_, by decide⟩
  exact c2_conventions_score_identically qLetterW qLiteralW 'B' (some "y")
    rfl (by decide) (by decide) (by decide) (by decide) (by decide)
    (by decide)

/-- C4: every `QuizResult` built by `handleSubmit` has as many detail entries
as `totalQuestions`, a score equal to the number of correct details, details
in the original question order (their question ids are the question list's
ids in order), and a `null` recorded selection for every unanswered
question. -/
theorem c4_result_invariants (answers : String → Option String)
    (qs : List Question) (uid topic rid : String) (ts : Nat) :
    (handleSubmit answers qs uid topic rid ts).details.length
        = (handleSubmit answers qs uid topic rid ts).totalQuestions
    ∧ (handleSubmit answers qs uid topic rid ts).score
        = ((handleSubmit answers qs uid topic rid ts).details.filter
            (fun d => d.isCorrect)).length
    ∧ (handleSubmit answers qs uid topic rid ts).details.map
        (fun d => d.questionId) = qs.map (fun q => q.id)
    ∧ ∀ p ∈ qs.zip (handleSubmit answers qs uid topic rid ts).details,
        answers p.1.id = none → p.2.selectedOption = none := by
  have hdet : (handleSubmit answers qs uid topic rid ts).details
      = qs.map (scoreDetail answers) := by
    simp [handleSubmit, submitDetails_snd]
  refine ⟨?_, ?_, ?_, ?_⟩
  · rw [hdet]
    simp [handleSubmit]
  · rw [hdet]
    simp [handleSubmit, submitDetails_fst, submitDetails_snd]
  · rw [hdet]
    simp [List.map_map, scoreDetail]
  · intro p hp hans
    rw [hdet] at hp
    have h2 := zip_map_snd (scoreDetail answers) qs p hp
    rw [h2]
    simp [scoreDetail, selectedFor, hans]

/-- Witness for C4 on a concrete two-question quiz where only the first
question is answered: the score matches the correct-detail count and the
unanswered second question is recorded with a `null` selection. -/
theorem c4_witness :
    (handleSubmit c4answers [c4q1, c4q2] "u" "T" "r" 0).score
        = ((handleSubmit c4answers [c4q1, c4q2] "u" "T" "r" 0).details.filter
            (fun d => d.isCorrect)).length
    ∧ (scoreDetail c4answers c4q2).selectedOption = none := by
  refine ⟨(c4_result_invariants c4answers [c4q1, c4q2] "u" "T" "r" 0).2.1, ?_⟩
  exact (c4_result_invariants c4answers [c4q1, c4q2] "u" "T" "r" 0).2.2.2
    (c4q2, scoreDetail c4answers c4q2) (by decide) (by decide)

end QuizApp

namespace QuizApp

/-! ## Identity reconciliation lemmas -/

theorem authPushStep_none_keeps_guest (σ : AuthState) (g : User)
    (hcu : σ.currentUser = some g)
    (hg : jsStartsWith g.uid "guest_" = true)
    (hgd : σ.guestData = none ∨ σ.guestData = some g) :
    (authPushStep σ none).currentUser = some g
    ∧ ((authPushStep σ none).guestData = none
        ∨ (authPushStep σ none).guestData = some g) := by
  cases hgd with
  | inl h => simp [authPushStep, listenerEmit, h, isGuestCurrent, hcu, hg]
  | inr h => simp [authPushStep, listenerEmit, h, hcu]

/-- C7: while the current identity is a guest (uid carries the `guest_`
prefix) and the stored guest snapshot is absent or matches it, any number of
provider pushes of `null` leaves the current identity unchanged — the
listener re-delivers the guest snapshot, and the app-level reset branch is
guarded by the current identity's guest check, so no transition to the
unauthenticated state happens. -/
theorem c7_null_pushes_keep_guest (σ : AuthState) (g : User) (n : Nat)
    (hcu : σ.currentUser = some g)
    (hg : jsStartsWith g.uid "guest_" = true)
    (hgd : σ.guestData = none ∨ σ.guestData = some g) :
    (nullPushes σ n).currentUser = some g := by
  induction n generalizing σ with
  | zero => exact hcu
  | succ n ih =>
    have hstep := authPushStep_none_keeps_guest σ g hcu hg hgd
    exact ih (authPushStep σ none) hstep.1 hstep.2

/-- Witness for C7: three consecutive `null` pushes leave a concrete active
guest session untouched. -/
theorem c7_witness :
    (nullPushes authStateEx 3).currentUser = some guestEx :=
  c7_null_pushes_keep_guest authStateEx guestEx 3 rfl (by decide)
    (Or.inr rfl)

end QuizApp

namespace QuizApp

/-! ## JS `Map` lemmas -/

theorem jsMapGet_insert {α : Type} (m : List (String × α)) (k k' : String)
    (v : α) :
    jsMapGet (jsMapInsert m k v) k'
      = if k = k' then some v else jsMapGet m k' := by
  induction m with
  | nil =>
    by_cases h : k = k' <;> simp [jsMapGet, jsMapInsert, List.find?_cons, h]
  | cons e rest ih =>
    obtain ⟨k0, v0⟩ := e
    by_cases h0 : k0 = k
    · subst h0
      by_cases h : k0 = k' <;>
        simp [jsMapGet, jsMapInsert, List.find?_cons, h]
    · by_cases h : k0 = k'
      · subst h
        have hkk : ¬ k = k0 := fun hh => h0 hh.symm
        simp [jsMapGet, jsMapInsert, List.find?_cons, h0, hkk]
      · simp [jsMapGet, jsMapInsert, List.find?_cons, h0, h] at ih ⊢
        exact ih

theorem jsMapGet_foldl {α : Type} (pairs : List (String × α))
    (m : List (String × α)) (k : String) :
    jsMapGet (pairs.foldl (fun m p => jsMapInsert m p.1 p.2) m) k
      = match lastAssoc pairs k with
        | some v => some v
        | none => jsMapGet m k := by
  induction pairs generalizing m with
  | nil => simp [lastAssoc]
  | cons p rest ih =>
    simp only [List.foldl_cons, lastAssoc]
    rw [ih]
    cases h : lastAssoc rest k with
    | some v => simp
    | none =>
      by_cases hk : p.1 = k <;> simp [jsMapGet_insert, hk]

theorem jsMapGet_ofList {α : Type} (pairs : List (String × α)) (k : String) :
    jsMapGet (jsMapOfList pairs) k = lastAssoc pairs k := by
  have h := jsMapGet_foldl pairs [] k
  cases hl : lastAssoc pairs k <;>
    simp [jsMapOfList, hl, jsMapGet] at h ⊢ <;> exact h

theorem mem_jsMapInsert {α : Type} (m : List (String × α)) (k : String)
    (v : α) :
    ∀ e ∈ jsMapInsert m k v, e = (k, v) ∨ e ∈ m := by
  induction m with
  | nil => simp [jsMapInsert]
  | cons e0 rest ih =>
    obtain ⟨k0, v0⟩ := e0
    intro e he
    by_cases h : k0 = k
    · simp only [jsMapInsert, if_pos h, List.mem_cons] at he
      rcases he with he | he
      · exact Or.inl he
      · exact Or.inr (List.mem_cons_of_mem _ he)
    · simp only [jsMapInsert, if_neg h, List.mem_cons] at he
      rcases he with he | he
      · exact Or.inr (by simp [he])
      · rcases ih e he with h1 | h1
        · exact Or.inl h1
        · exact Or.inr (List.mem_cons_of_mem _ h1)

theorem mem_jsMapOfList {α : Type} (pairs : List (String × α)) :
    ∀ e ∈ jsMapOfList pairs, e ∈ pairs := by
  suffices h : ∀ m, ∀ e ∈ pairs.foldl (fun m p => jsMapInsert m p.1 p.2) m,
      e ∈ m ∨ e ∈ pairs by
    intro e he
    rcases h [] e he with h1 | h1
    · simp at h1
    · exact h1
  induction pairs with
  | nil => exact fun m e he => Or.inl he
  | cons p rest ih =>
    intro m e he
    simp only [List.foldl_cons] at he
    rcases ih (jsMapInsert m p.1 p.2) e he with h1 | h1
    · rcases mem_jsMapInsert m p.1 p.2 e h1 with h2 | h2
      · exact Or.inr (by simp [h2])
      · exact Or.inl h2
    · exact Or.inr (List.mem_cons_of_mem p h1)

theorem keys_mem_jsMapInsert {α : Type} (m : List (String × α)) (k : String)
    (v : α) (k' : String) :
    k' ∈ (jsMapInsert m k v).map Prod.fst
      ↔ k' = k ∨ k' ∈ m.map Prod.fst := by
  induction m with
  | nil => simp [jsMapInsert]
  | cons e0 rest ih =>
    obtain ⟨k0, v0⟩ := e0
    by_cases h : k0 = k
    · subst h
      simp [jsMapInsert]
    · simp only [jsMapInsert, if_neg h, List.map_cons, List.mem_cons, ih]
      tauto

theorem nodup_keys_jsMapInsert {α : Type} (m : List (String × α)) (k : String)
    (v : α) (h : (m.map Prod.fst).Nodup) :
    ((jsMapInsert m k v).map Prod.fst).Nodup := by
  induction m with
  | nil => simp [jsMapInsert]
  | cons e0 rest ih =>
    obtain ⟨k0, v0⟩ := e0
    simp only [List.map_cons, List.nodup_cons] at h
    by_cases hk : k0 = k
    · subst hk
      have hins : jsMapInsert ((k0, v0) :: rest) k0 v = (k0, v) :: rest := by
        simp [jsMapInsert]
      rw [hins]
      simp only [List.map_cons, List.nodup_cons]
      exact h
    · simp only [jsMapInsert, if_neg hk, List.map_cons, List.nodup_cons]
      refine ⟨?_, ih h.2⟩
      rw [keys_mem_jsMapInsert]
      push_neg
      exact ⟨hk, h.1⟩

theorem nodup_keys_jsMapOfList {α : Type} (pairs : List (String × α)) :
    ((jsMapOfList pairs).map Prod.fst).Nodup := by
  suffices h : ∀ m : List (String × α), (m.map Prod.fst).Nodup →
      ((pairs.foldl (fun m p => jsMapInsert m p.1 p.2) m).map Prod.fst).Nodup by
    exact h [] (by simp)
  induction pairs with
  | nil => exact fun m h => h
  | cons p rest ih =>
    intro m h
    simp only [List.foldl_cons]
    exact ih (jsMapInsert m p.1 p.2) (nodup_keys_jsMapInsert m p.1 p.2 h)

theorem jsMapGet_eq_some_of_mem {α : Type} (m : List (String × α))
    (hn : (m.map Prod.fst).Nodup) (k : String) (v : α) (hm : (k, v) ∈ m) :
    jsMapGet m k = some v := by
  induction m with
  | nil => simp at hm
  | cons e rest ih =>
    obtain ⟨k0, v0⟩ := e
    simp only [List.map_cons, List.nodup_cons] at hn
    rcases List.mem_cons.mp hm with he | he
    · injection he with h1 h2
      subst h1
      subst h2
      simp [jsMapGet, List.find?_cons]
    · have hk0 : (decide (k0 = k)) = false := by
        apply decide_eq_false
        intro hh
        subst hh
        exact hn.1 (List.mem_map.mpr ⟨(k0, v), he, rfl⟩)
      simp only [jsMapGet, List.find?_cons, hk0]
      exact ih hn.2 he

theorem jsMapGet_mem {α : Type} (m : List (String × α)) (k : String) (v : α)
    (h : jsMapGet m k = some v) : (k, v) ∈ m := by
  induction m with
  | nil => simp [jsMapGet] at h
  | cons e rest ih =>
    obtain ⟨k0, v0⟩ := e
    by_cases hk : k0 = k
    · subst hk
      simp [jsMapGet, List.find?_cons] at h
      simp [h]
    · have hd : (decide (k0 = k)) = false := decide_eq_false hk
      simp only [jsMapGet, List.find?_cons, hd] at h
      exact List.mem_cons_of_mem _ (ih h)

theorem lastAssoc_eq_some_mem {α : Type} (pairs : List (String × α))
    (k : String) (v : α) (h : lastAssoc pairs k = some v) : (k, v) ∈ pairs := by
  induction pairs with
  | nil => simp [lastAssoc] at h
  | cons p rest ih =>
    simp only [lastAssoc] at h
    cases hr : lastAssoc rest k with
    | some w =>
      rw [hr] at h
      simp only [Option.some.injEq] at h
      subst h
      exact List.mem_cons_of_mem _ (ih hr)
    | none =>
      rw [hr] at h
      by_cases hk : p.1 = k
      · rw [if_pos hk] at h
        simp only [Option.some.injEq] at h
        subst h
        subst hk
        exact List.mem_cons_self _ _
      · rw [if_neg hk] at h
        exact absurd h (by simp)

theorem lastAssoc_eq_none_iff {α : Type} (pairs : List (String × α))
    (k : String) :
    lastAssoc pairs k = none ↔ ∀ p ∈ pairs, p.1 ≠ k := by
  induction pairs with
  | nil => simp [lastAssoc]
  | cons p rest ih =>
    simp only [lastAssoc]
    cases hr : lastAssoc rest k with
    | some v =>
      constructor
      · intro h; exact absurd h (by simp)
      · intro h
        have hv := lastAssoc_eq_some_mem rest k v hr
        exact absurd rfl (h (k, v) (List.mem_cons_of_mem p hv))
    | none =>
      constructor
      · intro h
        by_cases hk : p.1 = k
        · rw [if_pos hk] at h
          exact absurd h (by simp)
        · intro e he
          rcases List.mem_cons.mp he with he | he
          · rw [he]; exact hk
          · exact (ih.mp hr) e he
      · intro h
        rw [if_neg (h p (List.mem_cons_self p rest))]

end QuizApp

namespace QuizApp

/-! ## Review-index lemmas -/

theorem lastAssoc_byId_some (store : List Question) (id : String)
    (q : Question)
    (h : lastAssoc (store.map (fun q => (q.id, q))) id = some q) :
    q ∈ store ∧ q.id = id := by
  have hmem := lastAssoc_eq_some_mem _ id q h
  rcases List.mem_map.mp hmem with ⟨q', hq', hpair⟩
  injection hpair with h1 h2
  subst h2
  exact ⟨hq', h1⟩

theorem lastAssoc_byId_none (store : List Question) (id : String)
    (h : lastAssoc (store.map (fun q => (q.id, q))) id = none) :
    resolvesIn store id = false := by
  have hall := (lastAssoc_eq_none_iff _ id).mp h
  simp only [resolvesIn]
  rw [List.any_eq_false]
  intro q hq
  simp only [decide_eq_true_eq]
  exact hall (q.id, q) (List.mem_map.mpr ⟨q, hq, rfl⟩)

theorem lookup_reduceOption_spec (store : List Question) (ids : List String) :
    ((ids.map (fun id =>
        jsMapGet (jsMapOfList (store.map (fun q => (q.id, q)))) id)).reduceOption).map
          (fun q => q.id) = ids.filter (fun id => resolvesIn store id)
    ∧ ∀ q ∈ (ids.map (fun id =>
        jsMapGet (jsMapOfList (store.map (fun q => (q.id, q)))) id)).reduceOption,
        q ∈ store := by
  induction ids with
  | nil => simp
  | cons id rest ih =>
    obtain ⟨ih1, ih2⟩ := ih
    cases hc : jsMapGet (jsMapOfList (store.map (fun q => (q.id, q)))) id with
    | none =>
      have hres : resolvesIn store id = false :=
        lastAssoc_byId_none store id (by rw [← jsMapGet_ofList]; exact hc)
      constructor
      · simp [hc, hres, ih1]
      · intro q hq
        apply ih2
        simpa [hc] using hq
    | some q =>
      have hq : q ∈ store ∧ q.id = id :=
        lastAssoc_byId_some store id q (by rw [← jsMapGet_ofList]; exact hc)
      have hres : resolvesIn store id = true := by
        simp only [resolvesIn]
        rw [List.any_eq_true]
        exact ⟨q, hq.1, by simp [hq.2]⟩
      constructor
      · simp [hc, hres, ih1, hq.2]
      · intro q' hq'
        rcases (by simpa [hc] using hq' :
            q' = q ∨ q' ∈ (rest.map (fun id =>
              jsMapGet (jsMapOfList (store.map (fun q => (q.id, q)))) id)).reduceOption)
          with h | h
        · rw [h]; exact hq.1
        · exact ih2 q' h

/-- C9: the review index resolves the question ids recorded in a result's
details in exactly the detail order — its output's ids are the detail ids
filtered to those still resolving in the store — and every resolved record
is a stored question (ids that no longer resolve are dropped, the rest keep
their relative order). -/
theorem c9_review_resolution (store : List Question) (result : QuizResult) :
    (reviewQuestions store result).map (fun q => q.id)
        = (result.details.map (fun d => d.questionId)).filter
            (fun id => resolvesIn store id)
    ∧ ∀ q ∈ reviewQuestions store result, q ∈ store := by
  unfold reviewQuestions getQuestionsByIds
  by_cases h : (result.details.map (fun d => d.questionId)).isEmpty
  · have he : result.details.map (fun d => d.questionId) = [] := by
      simpa using h
    simp [he]
  · simp only [if_neg h]
    exact lookup_reduceOption_spec store _

/-- Witness for C9: a result whose details reference `qb`, a dangling id and
`qa` (reverse of store order) resolves to `[qb, qa]` — detail order kept,
dangling id dropped — and the resolved `qb` is a stored question. -/
theorem c9_witness :
    (reviewQuestions c9store c9result).map (fun q => q.id)
        = (c9result.details.map (fun d => d.questionId)).filter
            (fun id => resolvesIn c9store id)
    ∧ c9qb ∈ c9store
    ∧ (reviewQuestions c9store c9result).map (fun q => q.id) = ["qb", "qa"] := by
  refine ⟨(c9_review_resolution c9store c9result).1, ?_, by decide⟩
  exact (c9_review_resolution c9store c9result).2 c9qb (by decide)

end QuizApp

namespace QuizApp

/-! ## Import-pipeline lemmas -/

theorem lastAssoc_trim (qs : List Question) (k : String) :
    lastAssoc (qs.map (fun q => (jsTrim q.text, q))) k = lastWithText qs k := by
  induction qs with
  | nil => rfl
  | cons a rest ih =>
    simp only [List.map_cons, lastAssoc, lastWithText, ih]
    cases lastWithText rest k <;> rfl

theorem key_jsMapOfList_trim (gen : List Question) :
    ∀ e ∈ jsMapOfList (gen.map (fun q => (jsTrim q.text, q))),
      e.1 = jsTrim e.2.text := by
  intro e he
  have hmem := mem_jsMapOfList _ e he
  rcases List.mem_map.mp hmem with ⟨q, _, hpair⟩
  rw [← hpair]

theorem withIds_length_le (uuid : Nat → String) (l : List Question)
    (count : Nat) :
    (withIds uuid (l.take count)).length ≤ count := by
  simp [withIds, List.length_take]

/-- C5 (amended): the import pipeline dedupes candidates by *exact* match on
the text trimmed of leading/trailing whitespace (case-sensitive, inner
whitespace significant) — the surviving list has pairwise-distinct trimmed
texts and covers every candidate's trimmed text — and for duplicate trimmed
texts the surviving record is the *last* duplicate (`new Map` overwrites the
value), not the earlier one; the survivors are truncated to the originally
requested count before anything is written to the store. -/
theorem c5_dedupe_truncate_before_write (gen : List Question) (count : Nat) :
    ((dedupeByText gen).map (fun q => jsTrim q.text)).Nodup
    ∧ (∀ q ∈ gen, ∃ r ∈ dedupeByText gen, jsTrim r.text = jsTrim q.text)
    ∧ (∀ r ∈ dedupeByText gen, lastWithText gen (jsTrim r.text) = some r)
    ∧ (∀ (store : List Question) (uuid : Nat → String) (s' : List Question),
        handleGenerate count gen store uuid = Except.ok s' →
        s' = store ++ withIds uuid ((dedupeByText gen).take count)
        ∧ (withIds uuid ((dedupeByText gen).take count)).length ≤ count) := by
  refine ⟨?_, ?_, ?_, ?_⟩
  · have h1 : (dedupeByText gen).map (fun q => jsTrim q.text)
        = (jsMapOfList (gen.map (fun q => (jsTrim q.text, q)))).map Prod.fst := by
      simp only [dedupeByText, List.map_map]
      exact List.map_congr_left
        (fun e he => (key_jsMapOfList_trim gen e he).symm)
    rw [h1]
    exact nodup_keys_jsMapOfList _
  · intro q hq
    have hpmem : (jsTrim q.text, q) ∈ gen.map (fun q => (jsTrim q.text, q)) :=
      List.mem_map.mpr ⟨q, hq, rfl⟩
    cases hLA : lastAssoc (gen.map (fun q => (jsTrim q.text, q)))
        (jsTrim q.text) with
    | none =>
      exact absurd rfl
        ((lastAssoc_eq_none_iff _ _).mp hLA (jsTrim q.text, q) hpmem)
    | some v =>
      have hvm : (jsTrim q.text, v)
          ∈ jsMapOfList (gen.map (fun q => (jsTrim q.text, q))) :=
        jsMapGet_mem _ _ _ (by rw [jsMapGet_ofList]; exact hLA)
      refine ⟨v, ?_, ?_⟩
      · exact List.mem_map.mpr ⟨(jsTrim q.text, v), hvm, rfl⟩
      · exact (key_jsMapOfList_trim gen (jsTrim q.text, v) hvm).symm
  · intro r hr
    rcases List.mem_map.mp hr with ⟨e, he, hev⟩
    have hk := key_jsMapOfList_trim gen e he
    have hget : jsMapGet (jsMapOfList (gen.map (fun q => (jsTrim q.text, q))))
        e.1 = some e.2 :=
      jsMapGet_eq_some_of_mem _ (nodup_keys_jsMapOfList _) e.1 e.2 he
    rw [jsMapGet_ofList, lastAssoc_trim] at hget
    rw [← hev, ← hk]
    exact hget
  · intro store uuid s' hok
    simp only [handleGenerate] at hok
    split at hok
    · exact absurd hok (by simp)
    · split at hok
      · exact absurd hok (by simp)
      · split at hok
        · exact absurd hok (by simp)
        · injection hok with h
          exact ⟨h.symm, withIds_length_le uuid _ count⟩

/-- C5 counterexample: the dedupe key is only the trimmed text, so the
case-variant pair `"Same text"` / `"same text"` is *not* merged, falsifying
the claimed case-insensitive matching; and for the exact trimmed duplicates
`"Hi "` / `"Hi"`, the surviving record is the *later* candidate `c5q2`,
falsifying the claim that the earlier duplicate is kept. -/
theorem c5_counterexample :
    c5caseA.text.data.map Char.toLower = c5caseB.text.data.map Char.toLower
    ∧ dedupeByText [c5caseA, c5caseB] = [c5caseA, c5caseB]
    ∧ jsTrim c5q1.text = jsTrim c5q2.text
    ∧ dedupeByText [c5q1, c5q2] = [c5q2] := by
  decide

/-- Witness for the amended C5 on the concrete duplicate pair `c5gen`:
trimmed texts of the surviving list are distinct, the survivor for the
duplicated text is the later record `c5q2`, and a successful import of
`c5gen` with requested count 1 writes exactly the truncated deduped batch. -/
theorem c5_witness :
    ((dedupeByText c5gen).map (fun q => jsTrim q.text)).Nodup
    ∧ (∃ r ∈ dedupeByText c5gen, jsTrim r.text = jsTrim c5q1.text)
    ∧ lastWithText c5gen (jsTrim c5q2.text) = some c5q2
    ∧ c5expected = [] ++ withIds c5uuid ((dedupeByText c5gen).take 1)
    ∧ (withIds c5uuid ((dedupeByText c5gen).take 1)).length ≤ 1 := by
  have h := c5_dedupe_truncate_before_write c5gen 1
  have h4 := h.2.2.2 [] c5uuid c5expected (by rfl)
  exact ⟨h.1, h.2.1 c5q1 (by decide), h.2.2.1 c5q2 (by decide), h4.1, h4.2⟩

/-- C6: when dedup plus truncation leaves zero candidates the import takes an
error path before any store write, and a successful import both implies at
least one surviving candidate and appends exactly the surviving batch — the
store is untouched on every error path. -/
theorem c6_zero_candidates_abort (count : Nat) (gen store : List Question)
    (uuid : Nat → String) :
    ((dedupeByText gen).take count = [] →
      ∃ msg, handleGenerate count gen store uuid = Except.error msg)
    ∧ ∀ s', handleGenerate count gen store uuid = Except.ok s' →
        (dedupeByText gen).take count ≠ []
        ∧ s' = store ++ withIds uuid ((dedupeByText gen).take count) := by
  constructor
  · intro hempty
    simp only [handleGenerate]
    by_cases h1 : count < 1
    · exact ⟨_, by rw [if_pos h1]⟩
    · rw [if_neg h1]
      by_cases h2 : gen.isEmpty
      · exact ⟨_, by rw [if_pos h2]⟩
      · rw [if_neg h2]
        have h3 : ((dedupeByText gen).take count).isEmpty = true := by
          simp [hempty]
        exact ⟨_, by rw [if_pos h3]⟩
  · intro s' hok
    simp only [handleGenerate] at hok
    split at hok
    · exact absurd hok (by simp)
    · split at hok
      · exact absurd hok (by simp)
      · rename_i h3
        split at hok
        · exact absurd hok (by simp)
        · rename_i h4
          injection hok with h
          refine ⟨?_, h.symm⟩
          intro hnil
          exact h4 (by simp [hnil])

/-- Witness for C6: with requested count 0 the truncated candidate list is
empty and the import returns an error; with count 1 it succeeds, so the
truncated list is non-empty. -/
theorem c6_witness :
    (dedupeByText c5gen).take 0 = []
    ∧ (∃ msg, handleGenerate 0 c5gen [] c5uuid = Except.error msg)
    ∧ (dedupeByText c5gen).take 1 ≠ [] := by
  refine ⟨by decide, ?_, ?_⟩
  · exact (c6_zero_candidates_abort 0 c5gen [] c5uuid).1 (by decide)
  · exact ((c6_zero_candidates_abort 1 c5gen [] c5uuid).2 c5expected
      (by rfl)).1

end QuizApp
